import Mathlib

/-!
Shallow embedding of the `sync` repository (errgroup, singleflight, semaphore)
and verification of its specification claims.

Sources embedded:
- `src/errgroup/errgroup.go` : `Group`, `Go`, `Wait` (error-group part) and
  `Group`, `call`, `Do`, `DoChan`, `doCall`, `Forget` (singleflight part,
  concatenated in the same file);
- `src/semaphore/semaphore.go` : `Weighted`, `NewWeighted`, `Acquire`,
  `TryAcquire`, `Release`, `notifyWaiters`.

Goroutine interleavings are modelled by sequentializing the lock-protected
critical sections: every mutation of shared state in the Go source happens
under the component's single mutex (or, for the error group, under the
`sync.Once` gate), so a run of the program is a sequence of atomic steps and
is faithfully represented by explicit state passing below.
-/

namespace Errgroup

/-- State of `errgroup.Group` (src/errgroup/errgroup.go, first part).
`onceDone` models `errOnce : sync.Once` (whether `errOnce.Do` has fired);
`err` models the `err error` field; `hasCancel` models `cancel != nil`
(whether the group was built by `WithContext`); `cancelled` records whether
the derived context's cancel function has been invoked. -/
structure Group (E : Type) where
  hasCancel : Bool
  cancelled : Bool
  onceDone : Bool
  err : Option E
deriving DecidableEq

/-- A zero `Group` (valid, does not cancel on error); `WithContext` produces
the same zero state but with `cancel` set. -/
def Group.new (hasCancel : Bool) : Group E :=
  ⟨hasCancel, false, false, none⟩

/-- The tail of the goroutine body spawned by `Group.Go`, at the moment the
task function `f` completes with result `r` (`none` = nil error):
`if err := f(); err != nil { g.errOnce.Do(func() { g.err = err; if g.cancel != nil { g.cancel() } }) }`.
Applied to task results in completion order. -/
def taskComplete (g : Group E) (r : Option E) : Group E :=
  match r with
  | none => g
  | some e =>
    if g.onceDone then g
    else { g with onceDone := true, err := some e,
                  cancelled := g.cancelled || g.hasCancel }

/-- Run all spawned tasks to completion: `rs` lists the task results in
completion order (the order their `errOnce.Do` critical sections run). -/
def runAll (g : Group E) (rs : List (Option E)) : Group E :=
  rs.foldl taskComplete g

/-- `Group.Wait`: blocks until all tasks are done (here: taken after
`runAll`), fires the cancel function if present, returns `g.err`. -/
def Wait (g : Group E) : Group E × Option E :=
  let g1 := if g.hasCancel then { g with cancelled := true } else g
  (g1, g1.err)

end Errgroup

namespace Semaphore

/-- `waiter` (src/semaphore/semaphore.go): a queued blocking acquisition.
`id` identifies the `list.Element` (the `ready` channel's identity);
`n` is the requested weight (`int64`). -/
structure Waiter where
  id : Nat
  n : Int
deriving DecidableEq

/-- `Weighted`: `size` is the capacity, `cur` the weight currently in use,
`waiters` the FIFO queue (front at the head of the list). -/
structure Weighted where
  size : Int
  cur : Int
  waiters : List Waiter
deriving DecidableEq

/-- `NewWeighted(n)`. -/
def NewWeighted (n : Int) : Weighted :=
  ⟨n, 0, []⟩

/-- Loop body of `notifyWaiters`, recursing on the queue: grant the front
waiter while its weight fits in `size - cur` (`s.cur += w.n`, remove it,
`close(w.ready)`), stop at the first waiter that does not fit.
Returns (new `cur`, remaining queue, ids of the waiters granted, in order). -/
def notifyAux (size : Int) : Int → List Waiter → Int × List Waiter × List Nat
  | cur, [] => (cur, [], [])
  | cur, w :: rest =>
    if size - cur < w.n then
      (cur, w :: rest, [])
    else
      let r := notifyAux size (cur + w.n) rest
      (r.1, r.2.1, w.id :: r.2.2)

/-- `Weighted.notifyWaiters` (runs with the mutex held, called from `Release`
and from the cancellation path of `Acquire`). -/
def notifyWaiters (s : Weighted) : Weighted × List Nat :=
  let r := notifyAux s.size s.cur s.waiters
  ({ s with cur := r.1, waiters := r.2.1 }, r.2.2)

/-- `Weighted.TryAcquire(n)`:
`success := s.size-s.cur >= n && s.waiters.Len() == 0; if success { s.cur += n }`. -/
def TryAcquire (s : Weighted) (n : Int) : Weighted × Bool :=
  if s.size - s.cur ≥ n ∧ s.waiters.length = 0 then
    ({ s with cur := s.cur + n }, true)
  else
    (s, false)

/-- `Weighted.Release(n)`: `s.cur -= n`; panics if that drives `cur`
negative ("semaphore: released more than held"), else notifies waiters.
Returns `none` for the panic, otherwise the granted waiter ids. -/
def Release (s : Weighted) (n : Int) : Weighted × Option (List Nat) :=
  let c := s.cur - n
  if c < 0 then
    ({ s with cur := c }, none)
  else
    let r := notifyWaiters { s with cur := c }
    (r.1, some r.2)

/-- Outcome of the mutex-held prefix of `Weighted.Acquire`. -/
inductive AcquireStart where
  | granted
  | doomed
  | enqueued (id : Nat)
deriving DecidableEq

/-- The mutex-held prefix of `Weighted.Acquire(ctx, n)`:
fast path (`s.size-s.cur >= n && s.waiters.Len() == 0` → grant, return nil);
`n > s.size` → doomed (unlock without enqueuing; the caller then blocks on
`<-ctx.Done()` alone and returns `ctx.Err()`); otherwise push a fresh waiter
at the back of the queue. `fresh` is the id of the new `list.Element`. -/
def acquireStart (s : Weighted) (n : Int) (fresh : Nat) : Weighted × AcquireStart :=
  if s.size - s.cur ≥ n ∧ s.waiters.length = 0 then
    ({ s with cur := s.cur + n }, .granted)
  else if n > s.size then
    (s, .doomed)
  else
    ({ s with waiters := s.waiters ++ [⟨fresh, n⟩] }, .enqueued fresh)

/-- `s.waiters.Remove(elem)`: remove the queue element with the given id
(first occurrence; ids of live waiters are distinct). -/
def removeElem (ws : List Waiter) (id : Nat) : List Waiter :=
  ws.eraseP (fun w => w.id == id)

/-- The `<-ctx.Done()` branch of `Acquire` for a queued waiter: re-lock, and
if the waiter's `ready` channel is already closed (`granted = true`) keep the
grant and return nil (`err = nil`); otherwise remove the waiter from the
queue, and if it was at the front and `s.size > s.cur` run `notifyWaiters`;
return `ctx.Err()`. The boolean result is `true` iff `Acquire` returns nil. -/
def cancelQueued (s : Weighted) (id : Nat) (granted : Bool) : Weighted × Bool :=
  if granted then
    (s, true)
  else
    let isFront := s.waiters.head?.map Waiter.id = some id
    let s1 := { s with waiters := removeElem s.waiters id }
    if isFront ∧ s.size > s.cur then
      ((notifyWaiters s1).1, false)
    else
      (s1, false)

/-- `Weighted.Acquire(ctx, n)` called when `ctx` is already done and no
concurrent operation runs: the fast path still grants (it never consults
`ctx`); the doomed path returns `ctx.Err()` immediately; an enqueued waiter
takes the `<-ctx.Done()` branch with its `ready` channel not closed.
The boolean result is `true` iff `Acquire` returns nil. -/
def acquireCtxDone (s : Weighted) (n : Int) (fresh : Nat) : Weighted × Bool :=
  let r := acquireStart s n fresh
  match r.2 with
  | .granted => (r.1, true)
  | .doomed => (r.1, false)
  | .enqueued id => cancelQueued r.1 id false

/-- A semaphore state is settled when no further waiter can be granted:
the queue is empty or its front waiter does not fit. Every state reachable
between operations is settled, because every operation that frees capacity
or exposes a new front runs `notifyWaiters`. -/
def settled (s : Weighted) : Bool :=
  match s.waiters with
  | [] => true
  | w :: _ => decide (s.size - s.cur < w.n)

end Semaphore

namespace Singleflight

/-- `*panicError` (singleflight part of src/errgroup/errgroup.go): the value
recovered from a panic in the user function, wrapped by `newPanicError`.
The captured `debug.Stack()` bytes are opaque diagnostic data and are not
modelled. `P` is the type of panic values (`interface\x7b\x7d`). -/
structure PanicError (P : Type) where
  value : P
deriving DecidableEq

/-- The `error` stored in `call.err`: nil, an ordinary business error
returned by `fn`, a `*panicError`, or the `errGoexit` sentinel
(`errors.New("runtime.Goexit was called")`). -/
inductive StoredErr (E P : Type) where
  | noErr
  | business (e : E)
  | panicErr (p : PanicError P)
  | goexitSentinel
deriving DecidableEq

/-- How one execution of the user function `fn` terminates: a normal return
of `(v, e)`, a panic with value `p`, or `runtime.Goexit`. -/
inductive FnBehavior (V E P : Type) where
  | returns (v : V) (e : Option E)
  | panics (p : P)
  | goexits
deriving DecidableEq

/-- `call`: one in-flight or completed `Do` execution. `val`/`err` hold the
outcome (`val = none` models the nil `interface\x7b\x7d` before `fn` returns);
`forgotten` is set by `Forget`; `dups` counts duplicate joiners; `chans`
counts the `DoChan` result channels attached (`len(c.chans)`). -/
structure Call (V E P : Type) where
  val : Option V
  err : StoredErr E P
  forgotten : Bool
  dups : Nat
  chans : Nat
deriving DecidableEq

/-- `new(call)`: zero value. -/
def Call.new : Call V E P :=
  ⟨none, .noErr, false, 0, 0⟩

/-- `Result`: what a `DoChan` channel receives. -/
structure Result (V E P : Type) where
  val : Option V
  err : StoredErr E P
  shared : Bool
deriving DecidableEq

/-- State of a singleflight `Group`. `calls` is the heap of `call` objects
(indexed by allocation order, so a caller can hold a reference to a call
after its key was deleted from the map); `m` is the registry
`map[string]*call`, mapping each key to a call index. -/
structure GState (V E P : Type) where
  calls : List (Call V E P)
  m : List (String × Nat)
deriving DecidableEq

/-- `g.m[key]` lookup. -/
def lookupKey : List (String × Nat) → String → Option Nat
  | [], _ => none
  | (k, v) :: rest, key => if k = key then some v else lookupKey rest key

/-- `g.m[key] = v` assignment: replace the binding if present, else add it. -/
def setKey : List (String × Nat) → String → Nat → List (String × Nat)
  | [], key, v => [(key, v)]
  | (k, w) :: rest, key, v =>
    if k = key then (k, v) :: rest else (k, w) :: setKey rest key v

/-- `delete(g.m, key)`. -/
def eraseKey : List (String × Nat) → String → List (String × Nat)
  | [], _ => []
  | (k, w) :: rest, key =>
    if k = key then rest else (k, w) :: eraseKey rest key

/-- The registration step of `Group.Do(key, fn)` (under `g.mu`): if an entry
for `key` exists, `c.dups++` and join it (the caller then blocks on
`c.wg.Wait()`; `fn` is NOT executed); otherwise allocate a new `call`,
`c.wg.Add(1)`, store it under `key` (the caller then runs `g.doCall`).
Returns (new state, joined-existing?, index of the call). -/
def doRegister (g : GState V E P) (key : String) : GState V E P × Bool × Nat :=
  match lookupKey g.m key with
  | some cid =>
    match g.calls.get? cid with
    | some c =>
      ({ g with calls := g.calls.set cid { c with dups := c.dups + 1 } }, true, cid)
    | none => (g, true, cid)
  | none =>
    let cid := g.calls.length
    ({ calls := g.calls ++ [Call.new], m := setKey g.m key cid }, false, cid)

/-- The registration step of `Group.DoChan(key, fn)` (under `g.mu`): if an
entry exists, `c.dups++` and append the fresh result channel to `c.chans`;
otherwise allocate `&call\x7bchans: ...ch\x7d` and store it under `key`
(a goroutine then runs `g.doCall`). -/
def doChanRegister (g : GState V E P) (key : String) : GState V E P × Bool × Nat :=
  match lookupKey g.m key with
  | some cid =>
    match g.calls.get? cid with
    | some c =>
      ({ g with calls :=
          g.calls.set cid { c with dups := c.dups + 1, chans := c.chans + 1 } },
        true, cid)
    | none => (g, true, cid)
  | none =>
    let cid := g.calls.length
    ({ calls := g.calls ++ [{ Call.new with chans := 1 }], m := setKey g.m key cid },
      false, cid)

/-- The `error` value stored in `c.err` for a normal return of `fn`:
nil stays nil, a non-nil error is stored verbatim. -/
def storedOfReturn (e : Option E) : StoredErr E P :=
  match e with
  | none => .noErr
  | some x => .business x

/-- The effect of `fn`'s termination on the call record, as produced by the
body of `doCall`: a normal return stores `(val, err)`; a panic is recovered
by the inner deferred function into `newPanicError`; a `runtime.Goexit` is
detected by the outer deferred function via
`!normalReturn && !recovered` and stores `errGoexit`. -/
def execFn (c : Call V E P) (b : FnBehavior V E P) : Call V E P :=
  match b with
  | .returns v e => { c with val := some v, err := storedOfReturn e }
  | .panics p => { c with err := .panicErr ⟨p⟩ }
  | .goexits => { c with err := .goexitSentinel }

/-- What the outer deferred function of `doCall` does after `c.wg.Done()`,
besides updating the registry: deliver a `Result` to each attached channel
(normal return), re-panic the `*panicError` on the current goroutine
(`panic(e)`, when no channels are attached), re-panic it on a fresh
goroutine and block the current one forever (`go panic(e); select \x7b\x7d`,
when channels are attached), or nothing (already goexiting). -/
inductive CleanupEffect (V E P : Type) where
  | returns (delivered : List (Result V E P))
  | rethrows (p : PanicError P)
  | rethrowsAsync (p : PanicError P)
  | goexiting
deriving DecidableEq

/-- `g.doCall(c, key, fn)` for the call at index `cid`, with `fn` behaving
as `b`: run `fn`, record the outcome, then the outer deferred function:
`if !c.forgotten \x7b delete(g.m, key) \x7d`, then dispatch on `c.err`.
The `cid` not in the heap branch is unreachable for a live call index. -/
def doCall (g : GState V E P) (key : String) (cid : Nat) (b : FnBehavior V E P) :
    GState V E P × CleanupEffect V E P :=
  match g.calls.get? cid with
  | none => (g, .goexiting)
  | some c =>
    let c1 := execFn c b
    let g1 : GState V E P := { g with calls := g.calls.set cid c1 }
    let g2 := if c1.forgotten then g1 else { g1 with m := eraseKey g1.m key }
    match c1.err with
    | .panicErr p =>
      if c1.chans > 0 then (g2, .rethrowsAsync p) else (g2, .rethrows p)
    | .goexitSentinel => (g2, .goexiting)
    | e => (g2, .returns (List.replicate c1.chans ⟨c1.val, e, decide (0 < c1.dups)⟩))

/-- How a call to `Group.Do` ends for its caller: a normal return of
`(c.val, c.err, shared)`, a re-raised panic, `runtime.Goexit` of the
caller's goroutine, or blocking forever in `select \x7b\x7d`. -/
inductive DoOutcome (V E P : Type) where
  | returns (v : Option V) (e : StoredErr E P) (shared : Bool)
  | rethrows (p : PanicError P)
  | goexits
  | blocked
deriving DecidableEq

/-- A duplicate `Do` caller after `c.wg.Wait()` returns, reading the
completed call `c`:
`if e, ok := c.err.(*panicError); ok \x7b panic(e) \x7d else if c.err == errGoexit \x7b runtime.Goexit() \x7d; return c.val, c.err, true`. -/
def dupDoReturn (c : Call V E P) : DoOutcome V E P :=
  match c.err with
  | .panicErr p => .rethrows p
  | .goexitSentinel => .goexits
  | e => .returns c.val e true

/-- How `Do` ends for the initiating caller, which runs `g.doCall`
synchronously: the cleanup's control effect decides whether `Do` returns
`c.val, c.err, c.dups > 0`, panics, goexits, or blocks forever. -/
def initiatorReturn (g : GState V E P) (cid : Nat) (eff : CleanupEffect V E P) :
    DoOutcome V E P :=
  match eff with
  | .rethrows p => .rethrows p
  | .rethrowsAsync _ => .blocked
  | .goexiting => .goexits
  | .returns _ =>
    match g.calls.get? cid with
    | some c => .returns c.val c.err (decide (0 < c.dups))
    | none => .blocked

/-- `Group.Forget(key)`: if an entry exists, set its `forgotten` flag
(through the shared `*call` pointer); then `delete(g.m, key)`
unconditionally. -/
def Forget (g : GState V E P) (key : String) : GState V E P :=
  let g1 :=
    match lookupKey g.m key with
    | some cid =>
      match g.calls.get? cid with
      | some c => { g with calls := g.calls.set cid { c with forgotten := true } }
      | none => g
    | none => g
  { g1 with m := eraseKey g1.m key }

end Singleflight

/-! ## Helper lemmas -/

namespace Errgroup

theorem runAll_of_onceDone (rs : List (Option E)) :
    ∀ g : Group E, g.onceDone = true →
      runAll g rs = g := by
  induction rs with
  | nil => intro g _; rfl
  | cons r rs ih =>
    intro g hg
    cases r with
    | none => simpa [runAll, taskComplete] using ih g hg
    | some e => simpa [runAll, taskComplete, hg] using ih g hg

theorem runAll_err_findSome (rs : List (Option E)) :
    ∀ g : Group E, g.onceDone = false → g.err = none →
      (runAll g rs).err = rs.findSome? id := by
  induction rs with
  | nil => intro g _ hge; simpa [runAll] using hge
  | cons r rs ih =>
    intro g hg hge
    cases r with
    | none =>
      simpa [runAll, taskComplete, List.findSome?] using ih g hg hge
    | some e =>
      have h1 : runAll g (some e :: rs)
          = runAll { g with onceDone := true, err := some e,
                            cancelled := g.cancelled || g.hasCancel } rs := by
        simp [runAll, taskComplete, hg]
      rw [h1, runAll_of_onceDone rs _ rfl]
      simp [List.findSome?]

theorem findSome_of_unique (rs : List (Option E)) (e : E) :
    some e ∈ rs → (∀ x ∈ rs, x = none ∨ x = some e) →
      rs.findSome? id = some e := by
  induction rs with
  | nil => intro h; cases h
  | cons r rs ih =>
    intro hmem hall
    rcases hall r (List.mem_cons_self r rs) with hr | hr
    · subst hr
      have hmem2 : some e ∈ rs := by
        rcases List.mem_cons.mp hmem with h | h
        · cases h
        · exact h
      have := ih hmem2 (fun x hx => hall x (List.mem_cons_of_mem _ hx))
      simpa [List.findSome?] using this
    · subst hr
      simp [List.findSome?]

theorem findSome_of_all_none (rs : List (Option E)) :
    (∀ x ∈ rs, x = none) → rs.findSome? id = none := by
  induction rs with
  | nil => intro _; rfl
  | cons r rs ih =>
    intro hall
    have hr := hall r (List.mem_cons_self r rs)
    subst hr
    simpa [List.findSome?] using ih (fun x hx => hall x (List.mem_cons_of_mem _ hx))

end Errgroup

namespace Semaphore

theorem notifyAux_prefix (size : Int) (ws : List Waiter) :
    ∀ cur : Int, ∃ p : List Waiter,
      ws = p ++ (notifyAux size cur ws).2.1
      ∧ (notifyAux size cur ws).2.2 = p.map Waiter.id
      ∧ (notifyAux size cur ws).1 = cur + (p.map Waiter.n).sum
      ∧ (∀ w rest2, (notifyAux size cur ws).2.1 = w :: rest2 →
          size - (notifyAux size cur ws).1 < w.n) := by
  induction ws with
  | nil =>
    intro cur
    exact ⟨[], by simp [notifyAux]⟩
  | cons w rest ih =>
    intro cur
    by_cases h : size - cur < w.n
    · refine ⟨[], ?_⟩
      simp only [notifyAux, if_pos h]
      refine ⟨rfl, rfl, by simp, ?_⟩
      intro w2 rest2 heq
      cases heq
      simpa using h
    · obtain ⟨p0, hql, hgr, hcur, hstop⟩ := ih (cur + w.n)
      refine ⟨w :: p0, ?_, ?_, ?_, ?_⟩
      · simp only [notifyAux, if_neg h]
        exact congrArg (w :: ·) hql
      · simp only [notifyAux, if_neg h, List.map_cons]
        exact congrArg (w.id :: ·) hgr
      · simp only [notifyAux, if_neg h, List.map_cons, List.sum_cons]
        omega
      · intro w2 rest2 heq
        simp only [notifyAux, if_neg h] at heq ⊢
        exact hstop w2 rest2 heq

theorem notifyAux_front_unfit (size cur : Int) (w : Waiter) (rest : List Waiter)
    (h : size - cur < w.n) :
    notifyAux size cur (w :: rest) = (cur, w :: rest, []) := by
  simp [notifyAux, h]

theorem notifyWaiters_settled (s : Weighted)
    (h : settled s = true) : notifyWaiters s = (s, []) := by
  unfold notifyWaiters
  cases hw : s.waiters with
  | nil =>
    simp only [notifyAux]
    rw [← hw]
  | cons w rest =>
    have hfit : s.size - s.cur < w.n := by
      unfold settled at h
      rw [hw] at h
      simpa using h
    rw [notifyAux_front_unfit s.size s.cur w rest hfit]
    simp [← hw]

theorem removeElem_not_mem (ws : List Waiter) (id : Nat)
    (h : (ws.map Waiter.id).Nodup) :
    id ∉ (removeElem ws id).map Waiter.id := by
  induction ws with
  | nil => simp [removeElem]
  | cons w rest ih =>
    rw [List.map_cons, List.nodup_cons] at h
    by_cases hw : w.id = id
    · have : removeElem (w :: rest) id = rest := by
        simp [removeElem, List.eraseP_cons, hw]
      rw [this]
      rw [← hw]
      exact h.1
    · have : removeElem (w :: rest) id = w :: removeElem rest id := by
        simp [removeElem, List.eraseP_cons, hw]
      rw [this, List.map_cons]
      intro hmem
      rcases List.mem_cons.mp hmem with h1 | h1
      · exact hw h1.symm
      · exact ih h.2 h1

theorem notifyAux_queue_sublist (size : Int) (ws : List Waiter) (cur : Int) :
    List.Sublist (notifyAux size cur ws).2.1 ws := by
  obtain ⟨p, hql, -, -, -⟩ := notifyAux_prefix size ws cur
  conv_rhs => rw [hql]
  exact List.sublist_append_right p _

end Semaphore

namespace Singleflight

theorem heap_get_set_self (l : List α) (i : Nat) (a : α) :
    ∀ _ : i < l.length, (l.set i a).get? i = some a := by
  induction l generalizing i with
  | nil => intro h; cases h
  | cons x xs ih =>
    intro h
    cases i with
    | zero => rfl
    | succ j =>
      have hj : j < xs.length := Nat.lt_of_succ_lt_succ h
      simpa [List.set, List.get?] using ih j hj

theorem heap_get_some_lt (l : List α) (i : Nat) (a : α) :
    l.get? i = some a → i < l.length := by
  induction l generalizing i with
  | nil => intro h; cases h
  | cons x xs ih =>
    intro h
    cases i with
    | zero => exact Nat.succ_pos _
    | succ j =>
      have := ih (i := j) (by simpa [List.get?] using h)
      exact Nat.succ_lt_succ this

theorem lookup_none_of_not_mem (m : List (String × Nat)) (k : String)
    (h : k ∉ m.map Prod.fst) : lookupKey m k = none := by
  induction m with
  | nil => rfl
  | cons kv rest ih =>
    rw [List.map_cons] at h
    have h1 : kv.1 ≠ k := fun he =>
      absurd (he ▸ List.mem_cons_self kv.1 (rest.map Prod.fst)) h
    have h2 : k ∉ rest.map Prod.fst := fun hm => h (List.mem_cons_of_mem _ hm)
    obtain ⟨k0, v0⟩ := kv
    simp only [lookupKey]
    rw [if_neg (by exact h1)]
    exact ih h2

theorem eraseKey_of_not_mem (m : List (String × Nat)) (k : String)
    (h : k ∉ m.map Prod.fst) : eraseKey m k = m := by
  induction m with
  | nil => rfl
  | cons kv rest ih =>
    rw [List.map_cons] at h
    have h1 : kv.1 ≠ k := fun he =>
      absurd (he ▸ List.mem_cons_self kv.1 (rest.map Prod.fst)) h
    have h2 : k ∉ rest.map Prod.fst := fun hm => h (List.mem_cons_of_mem _ hm)
    obtain ⟨k0, v0⟩ := kv
    simp only [eraseKey]
    rw [if_neg (by exact h1)]
    rw [ih h2]

theorem lookup_eraseKey_self (m : List (String × Nat)) (k : String)
    (h : (m.map Prod.fst).Nodup) : lookupKey (eraseKey m k) k = none := by
  induction m with
  | nil => rfl
  | cons kv rest ih =>
    rw [List.map_cons, List.nodup_cons] at h
    obtain ⟨k0, v0⟩ := kv
    by_cases hk : k0 = k
    · simp only [eraseKey, if_pos hk]
      exact lookup_none_of_not_mem rest k (hk ▸ h.1)
    · simp only [eraseKey, if_neg hk]
      simp only [lookupKey, if_neg hk]
      exact ih h.2

end Singleflight

/-! ## Claim theorems -/

/-- C1: For a task group running tasks whose results arrive in completion
order `rs`, `Wait` returns the first non-nil error in completion order (the
`errOnce` set-once gate retains exactly one error even when several tasks
fail); when exactly one task fails with error `e` (all others return nil),
`Wait` returns `some e` regardless of which position in the completion
order the failure occupies; when all tasks return nil, `Wait` returns
`none`. -/
theorem errgroup_wait_first_error (E : Type) (hc : Bool) :
    (∀ rs : List (Option E),
      (Errgroup.Wait (Errgroup.runAll (Errgroup.Group.new hc) rs)).2
        = rs.findSome? id)
    ∧ (∀ (rs : List (Option E)) (e : E), some e ∈ rs →
        (∀ x ∈ rs, x = none ∨ x = some e) →
        (Errgroup.Wait (Errgroup.runAll (Errgroup.Group.new hc) rs)).2 = some e)
    ∧ (∀ rs : List (Option E), (∀ x ∈ rs, x = none) →
        (Errgroup.Wait (Errgroup.runAll (Errgroup.Group.new hc) rs)).2 = none) := by
  have hw : ∀ g : Errgroup.Group E, (Errgroup.Wait g).2 = g.err := by
    intro g
    by_cases h : g.hasCancel = true <;> simp [Errgroup.Wait, h]
  have hfs : ∀ rs : List (Option E),
      (Errgroup.Wait (Errgroup.runAll (Errgroup.Group.new hc) rs)).2
        = rs.findSome? id := by
    intro rs
    rw [hw]
    exact Errgroup.runAll_err_findSome rs (Errgroup.Group.new hc) rfl rfl
  refine ⟨hfs, ?_, ?_⟩
  · intro rs e hmem hall
    rw [hfs]
    exact Errgroup.findSome_of_unique rs e hmem hall
  · intro rs hall
    rw [hfs]
    exact Errgroup.findSome_of_all_none rs hall

theorem errgroup_wait_first_error_witness :
    (Errgroup.Wait (Errgroup.runAll (Errgroup.Group.new true)
        [none, some 5, none])).2 = some (5 : Nat) :=
  (errgroup_wait_first_error Nat true).2.1 [none, some 5, none] 5
    (by decide) (by decide)

/-- C6: `notifyWaiters` scans the wait queue strictly from the front: it
grants some prefix of the queue in order (adding each granted waiter's
weight to `cur` and removing it) and stops at the first waiter that does
not fit — if the remaining queue is nonempty, its front waiter does not fit
in the remaining free capacity, even if a later smaller waiter would fit.
In particular, for waiters W1(weight C), W2(weight 1), W3(weight 1) with
free capacity enough for W2+W3 but not for W1, nothing is granted and W2,
W3 remain blocked behind W1. -/
theorem semaphore_notifyWaiters_fifo :
    (∀ (size cur : Int) (ws : List Semaphore.Waiter),
        ∃ p : List Semaphore.Waiter,
        ws = p ++ (Semaphore.notifyAux size cur ws).2.1
        ∧ (Semaphore.notifyAux size cur ws).2.2 = p.map Semaphore.Waiter.id
        ∧ (Semaphore.notifyAux size cur ws).1
            = cur + (p.map Semaphore.Waiter.n).sum
        ∧ (∀ w rest2, (Semaphore.notifyAux size cur ws).2.1 = w :: rest2 →
            size - (Semaphore.notifyAux size cur ws).1 < w.n))
    ∧ (∀ C c : Int, 2 ≤ C - c → C - c < C →
        Semaphore.notifyWaiters ⟨C, c, [⟨1, C⟩, ⟨2, 1⟩, ⟨3, 1⟩]⟩
          = (⟨C, c, [⟨1, C⟩, ⟨2, 1⟩, ⟨3, 1⟩]⟩, [])) := by
  constructor
  · intro size cur ws
    exact Semaphore.notifyAux_prefix size ws cur
  · intro C c h2 hlt
    apply Semaphore.notifyWaiters_settled
    simp only [Semaphore.settled, decide_eq_true_eq]
    omega

theorem semaphore_notifyWaiters_fifo_witness :
    Semaphore.notifyWaiters ⟨3, 1, [⟨1, 3⟩, ⟨2, 1⟩, ⟨3, 1⟩]⟩
      = (⟨3, 1, [⟨1, 3⟩, ⟨2, 1⟩, ⟨3, 1⟩]⟩, []) :=
  semaphore_notifyWaiters_fifo.2 3 1 (by decide) (by decide)

/-- C7: `TryAcquire(n)` returns true and adds exactly `n` to `cur` iff
`n ≤ size - cur` and the wait queue is empty; otherwise it returns false
and leaves the state (both `cur` and the queue) unchanged. -/
theorem semaphore_tryAcquire_spec (s : Semaphore.Weighted) (n : Int) :
    ((Semaphore.TryAcquire s n).2 = true ↔
        n ≤ s.size - s.cur ∧ s.waiters = [])
    ∧ (n ≤ s.size - s.cur ∧ s.waiters = [] →
        Semaphore.TryAcquire s n = ({ s with cur := s.cur + n }, true))
    ∧ (¬ (n ≤ s.size - s.cur ∧ s.waiters = []) →
        Semaphore.TryAcquire s n = (s, false)) := by
  have hcond : (s.size - s.cur ≥ n ∧ s.waiters.length = 0) ↔
      (n ≤ s.size - s.cur ∧ s.waiters = []) := by
    rw [ge_iff_le, List.length_eq_zero]
  by_cases h : n ≤ s.size - s.cur ∧ s.waiters = []
  · refine ⟨?_, fun _ => ?_, fun hn => absurd h hn⟩
    · simp only [Semaphore.TryAcquire, if_pos (hcond.mpr h)]
      simpa using h
    · simp only [Semaphore.TryAcquire, if_pos (hcond.mpr h)]
  · refine ⟨?_, fun hy => absurd hy h, fun _ => ?_⟩
    · simp only [Semaphore.TryAcquire, if_neg (fun hx => h (hcond.mp hx))]
      simpa using h
    · simp only [Semaphore.TryAcquire, if_neg (fun hx => h (hcond.mp hx))]

theorem semaphore_tryAcquire_spec_witness :
    Semaphore.TryAcquire ⟨3, 1, []⟩ 2 = (⟨3, 3, []⟩, true)
    ∧ Semaphore.TryAcquire ⟨3, 2, []⟩ 2 = (⟨3, 2, []⟩, false) :=
  ⟨(semaphore_tryAcquire_spec ⟨3, 1, []⟩ 2).2.1 (by decide),
    (semaphore_tryAcquire_spec ⟨3, 2, []⟩ 2).2.2 (by decide)⟩

/-- C8: an `Acquire` call with weight strictly greater than the capacity
(in any state with `0 ≤ cur`) never takes the fast path and never enqueues
a waiter: the lock-held prefix returns `doomed`, after which the caller
blocks solely on `<-ctx.Done()`; once the cancellation signal fires the
call returns `ctx.Err()` (modelled by the `false` result) with `cur` and
the wait queue unchanged. -/
theorem semaphore_acquire_over_capacity (s : Semaphore.Weighted) (n : Int)
    (fresh : Nat) (hcur : 0 ≤ s.cur) (hn : s.size < n) :
    Semaphore.acquireStart s n fresh = (s, Semaphore.AcquireStart.doomed)
    ∧ Semaphore.acquireCtxDone s n fresh = (s, false) := by
  have hfast : ¬ (s.size - s.cur ≥ n ∧ s.waiters.length = 0) := by
    intro h
    omega
  have hst : Semaphore.acquireStart s n fresh
      = (s, Semaphore.AcquireStart.doomed) := by
    simp only [Semaphore.acquireStart, if_neg hfast, if_pos hn]
  refine ⟨hst, ?_⟩
  simp [Semaphore.acquireCtxDone, hst]

theorem semaphore_acquire_over_capacity_witness :
    Semaphore.acquireStart ⟨2, 0, []⟩ 3 0
      = (⟨2, 0, []⟩, Semaphore.AcquireStart.doomed)
    ∧ Semaphore.acquireCtxDone ⟨2, 0, []⟩ 3 0 = (⟨2, 0, []⟩, false) :=
  semaphore_acquire_over_capacity ⟨2, 0, []⟩ 3 0 (by decide) (by decide)

/-- C10: when the fast path applies (`n ≤ size - cur` and the wait queue is
empty), `Acquire` grants immediately and returns nil even if the
cancellation signal has already fired at the time of the call
(`acquireCtxDone` models `Acquire` invoked with an already-done context):
the fast path never consults the context. -/
theorem semaphore_acquire_fast_path_ignores_ctx (s : Semaphore.Weighted)
    (n : Int) (fresh : Nat) (h1 : n ≤ s.size - s.cur) (h2 : s.waiters = []) :
    Semaphore.acquireCtxDone s n fresh = ({ s with cur := s.cur + n }, true) := by
  simp [Semaphore.acquireCtxDone, Semaphore.acquireStart, h1, h2]

theorem semaphore_acquire_fast_path_ignores_ctx_witness :
    Semaphore.acquireCtxDone ⟨2, 0, []⟩ 1 9 = (⟨2, 1, []⟩, true) :=
  semaphore_acquire_fast_path_ignores_ctx ⟨2, 0, []⟩ 1 9 (by decide) rfl

/-- C9: for a queued waiter whose cancellation signal fires, in any settled
reachable state with positive queued weights and distinct waiter ids:
if its grant already happened (`ready` closed), `Acquire` returns nil and
the state — including the allocated weight — is untouched, the cancellation
being discarded; otherwise `Acquire` returns the cancellation error
(`false`), the waiter is fully removed from the queue before returning
(its id no longer appears), and the resulting state is exactly
`notifyWaiters` applied to the state without the waiter — i.e. the waiters
are re-evaluated when the removed waiter was at the head and capacity is
free, and the state is as if this acquisition had never been attempted. -/
theorem semaphore_cancel_spec (s : Semaphore.Weighted) (id : Nat)
    (hnodup : (s.waiters.map Semaphore.Waiter.id).Nodup)
    (hmem : id ∈ s.waiters.map Semaphore.Waiter.id)
    (hset : Semaphore.settled s = true)
    (hpos : ∀ w ∈ s.waiters, 1 ≤ w.n) :
    Semaphore.cancelQueued s id true = (s, true)
    ∧ (Semaphore.cancelQueued s id false).2 = false
    ∧ (Semaphore.cancelQueued s id false).1
        = (Semaphore.notifyWaiters
            { s with waiters := Semaphore.removeElem s.waiters id }).1
    ∧ id ∉ ((Semaphore.cancelQueued s id false).1.waiters.map
          Semaphore.Waiter.id) := by
  have h2 : (Semaphore.cancelQueued s id false).2 = false := by
    unfold Semaphore.cancelQueued
    rw [if_neg (show ¬ (false = true) by decide)]
    dsimp only
    split <;> rfl
  have h3 : (Semaphore.cancelQueued s id false).1
      = (Semaphore.notifyWaiters
          { s with waiters := Semaphore.removeElem s.waiters id }).1 := by
    cases hw : s.waiters with
    | nil =>
      rw [hw] at hmem
      simp at hmem
    | cons w rest =>
      have hfit : s.size - s.cur < w.n := by
        unfold Semaphore.settled at hset
        rw [hw] at hset
        simpa using hset
      by_cases hid : w.id = id
      · have hrem : Semaphore.removeElem (w :: rest) id = rest := by
          simp [Semaphore.removeElem, List.eraseP_cons, hid]
        rw [hrem]
        by_cases hcap : s.size > s.cur
        · simp [Semaphore.cancelQueued, hw, hid, hcap, hrem]
        · have hsettled2 : Semaphore.settled { s with waiters := rest } = true := by
            cases hr : rest with
            | nil => rfl
            | cons w2 r2 =>
              have hw2 : 1 ≤ w2.n := by
                refine hpos w2 ?_
                rw [hw, hr]
                exact List.mem_cons_of_mem _ (List.mem_cons_self _ _)
              simp only [Semaphore.settled, decide_eq_true_eq]
              omega
          rw [Semaphore.notifyWaiters_settled _ hsettled2]
          simp [Semaphore.cancelQueued, hw, hid, hcap, hrem]
      · have hrem : Semaphore.removeElem (w :: rest) id
            = w :: Semaphore.removeElem rest id := by
          simp [Semaphore.removeElem, List.eraseP_cons, hid]
        rw [hrem]
        have hsettled2 : Semaphore.settled
            { s with waiters := w :: Semaphore.removeElem rest id } = true := by
          simp only [Semaphore.settled, decide_eq_true_eq]
          exact hfit
        rw [Semaphore.notifyWaiters_settled _ hsettled2]
        simp [Semaphore.cancelQueued, hw, hid, hrem]
  refine ⟨rfl, h2, h3, ?_⟩
  have hnotmem : id ∉ (Semaphore.removeElem s.waiters id).map Semaphore.Waiter.id :=
    Semaphore.removeElem_not_mem s.waiters id hnodup
  rw [h3]
  intro hmem2
  apply hnotmem
  have hsub := Semaphore.notifyAux_queue_sublist s.size
    (Semaphore.removeElem s.waiters id) s.cur
  exact ((hsub.map Semaphore.Waiter.id).subset) hmem2

theorem semaphore_cancel_spec_witness :
    Semaphore.cancelQueued ⟨3, 2, [⟨7, 2⟩, ⟨8, 1⟩]⟩ 7 true
      = (⟨3, 2, [⟨7, 2⟩, ⟨8, 1⟩]⟩, true)
    ∧ Semaphore.cancelQueued ⟨3, 2, [⟨7, 2⟩, ⟨8, 1⟩]⟩ 7 false
      = (⟨3, 3, []⟩, false) := by
  have h := semaphore_cancel_spec ⟨3, 2, [⟨7, 2⟩, ⟨8, 1⟩]⟩ 7
    (by decide) (by decide) (by decide) (by decide)
  refine ⟨h.1, ?_⟩
  have h2 := h.2.1
  have h3 := h.2.2.1
  have hfin : (Semaphore.cancelQueued ⟨3, 2, [⟨7, 2⟩, ⟨8, 1⟩]⟩ 7 false).1
      = ⟨3, 3, []⟩ := by
    rw [h3]
    decide
  calc Semaphore.cancelQueued ⟨3, 2, [⟨7, 2⟩, ⟨8, 1⟩]⟩ 7 false
      = ((Semaphore.cancelQueued ⟨3, 2, [⟨7, 2⟩, ⟨8, 1⟩]⟩ 7 false).1,
          (Semaphore.cancelQueued ⟨3, 2, [⟨7, 2⟩, ⟨8, 1⟩]⟩ 7 false).2) := rfl
    _ = (⟨3, 3, []⟩, false) := by rw [hfin, h2]

/-- C2: a caller of `Do(K, fn)` that finds an existing entry for `K` joins
it: `dups` is incremented and no new call is allocated, so `fn` is not
executed again for that entry (executions only happen on the path that
allocates a call). After the entry's execution completes normally, every
such duplicate receives, after `c.wg.Wait()`, exactly the stored
`(value, error)` pair with `shared = true`; the initiating caller returns
the stored pair with `shared` true iff at least one duplicate joined
(`c.dups > 0`). -/
theorem singleflight_do_dedup (V E P : Type) (g : Singleflight.GState V E P)
    (key : String) (cid : Nat) (c : Singleflight.Call V E P)
    (hk : Singleflight.lookupKey g.m key = some cid)
    (hc : g.calls.get? cid = some c) :
    Singleflight.doRegister g key
      = ({ g with calls := g.calls.set cid { c with dups := c.dups + 1 } }, true, cid)
    ∧ (Singleflight.doRegister g key).1.calls.length = g.calls.length
    ∧ (∀ cf : Singleflight.Call V E P,
        (∀ p, cf.err ≠ Singleflight.StoredErr.panicErr p) →
        cf.err ≠ Singleflight.StoredErr.goexitSentinel →
        Singleflight.dupDoReturn cf
          = Singleflight.DoOutcome.returns cf.val cf.err true)
    ∧ (∀ (g2 : Singleflight.GState V E P) (key2 : String) (cid2 : Nat)
          (c2 : Singleflight.Call V E P) (v : V) (e : Option E),
        g2.calls.get? cid2 = some c2 → c2.chans = 0 → c2.forgotten = false →
        Singleflight.initiatorReturn
            (Singleflight.doCall g2 key2 cid2 (Singleflight.FnBehavior.returns v e)).1
            cid2
            (Singleflight.doCall g2 key2 cid2 (Singleflight.FnBehavior.returns v e)).2
          = Singleflight.DoOutcome.returns (some v) (Singleflight.storedOfReturn e)
              (decide (0 < c2.dups))) := by
  have hc2 : g.calls[cid]? = some c := by simpa using hc
  have h1 : Singleflight.doRegister g key
      = ({ g with calls := g.calls.set cid { c with dups := c.dups + 1 } },
          true, cid) := by
    simp [Singleflight.doRegister, hk, hc2]
  refine ⟨h1, ?_, ?_, ?_⟩
  · rw [h1]
    exact List.length_set g.calls cid _
  · intro cf hp hg
    cases herr : cf.err with
    | noErr => simp [Singleflight.dupDoReturn, herr]
    | business e => simp [Singleflight.dupDoReturn, herr]
    | panicErr p => exact absurd herr (hp p)
    | goexitSentinel => exact absurd herr hg
  · intro g2 key2 cid2 c2 v e h2c hchans hforg
    have hlt : cid2 < g2.calls.length := Singleflight.heap_get_some_lt _ _ _ h2c
    have h2c2 : g2.calls[cid2]? = some c2 := by simpa using h2c
    have hget : ∀ x : Singleflight.Call V E P, (g2.calls.set cid2 x)[cid2]? = some x :=
      fun x => by simpa using Singleflight.heap_get_set_self g2.calls cid2 x hlt
    cases e with
    | none =>
      simp [Singleflight.doCall, h2c2, Singleflight.execFn,
        Singleflight.storedOfReturn, hforg, Singleflight.initiatorReturn, hget]
    | some x =>
      simp [Singleflight.doCall, h2c2, Singleflight.execFn,
        Singleflight.storedOfReturn, hforg, Singleflight.initiatorReturn, hget]

theorem singleflight_do_dedup_witness :
    Singleflight.doRegister (⟨[Singleflight.Call.new], [("k", 0)]⟩ :
        Singleflight.GState Nat Nat Nat) "k"
      = (⟨[⟨none, Singleflight.StoredErr.noErr, false, 1, 0⟩], [("k", 0)]⟩, true, 0)
    ∧ Singleflight.dupDoReturn (⟨some 42, Singleflight.StoredErr.noErr, false, 1, 0⟩ :
        Singleflight.Call Nat Nat Nat)
      = Singleflight.DoOutcome.returns (some 42) Singleflight.StoredErr.noErr true
    ∧ Singleflight.initiatorReturn
        (Singleflight.doCall (⟨[⟨none, Singleflight.StoredErr.noErr, false, 1, 0⟩],
            [("k", 0)]⟩ : Singleflight.GState Nat Nat Nat) "k" 0
          (Singleflight.FnBehavior.returns 42 none)).1 0
        (Singleflight.doCall (⟨[⟨none, Singleflight.StoredErr.noErr, false, 1, 0⟩],
            [("k", 0)]⟩ : Singleflight.GState Nat Nat Nat) "k" 0
          (Singleflight.FnBehavior.returns 42 none)).2
      = Singleflight.DoOutcome.returns (some 42) Singleflight.StoredErr.noErr true := by
  have h := singleflight_do_dedup Nat Nat Nat
    ⟨[Singleflight.Call.new], [("k", 0)]⟩ "k" 0 Singleflight.Call.new
    (by decide) rfl
  refine ⟨h.1, ?_, ?_⟩
  · exact h.2.2.1 ⟨some 42, Singleflight.StoredErr.noErr, false, 1, 0⟩
      (fun p he => Singleflight.StoredErr.noConfusion he)
      (fun he => Singleflight.StoredErr.noConfusion he)
  · exact h.2.2.2 ⟨[⟨none, Singleflight.StoredErr.noErr, false, 1, 0⟩], [("k", 0)]⟩
      "k" 0 ⟨none, Singleflight.StoredErr.noErr, false, 1, 0⟩ 42 none rfl rfl rfl

/-- C3 counterexample: the claim says that once the retained flag
(`forgotten`) is set for a key with a live entry, the entry survives and
is REUSED by every subsequent caller for that key. On the code this is
false: `Forget` sets `c.forgotten = true` and in the same critical section
executes `delete(g.m, key)`, so immediately afterwards the registry has no
entry for the key and the next `Do` caller does not join the old entry —
it allocates a fresh call (`doRegister` returns joined = false). Concrete
input: a state with one in-flight entry for key "k". -/
theorem singleflight_retain_cex :
    Singleflight.lookupKey
        (Singleflight.Forget (⟨[Singleflight.Call.new], [("k", 0)]⟩ :
          Singleflight.GState Nat Nat Nat) "k").m "k" = none
    ∧ (Singleflight.doRegister
        (Singleflight.Forget (⟨[Singleflight.Call.new], [("k", 0)]⟩ :
          Singleflight.GState Nat Nat Nat) "k") "k").2.1 = false := by
  decide

/-- C3 amended: `Forget` on a key with a live entry sets the entry's
`forgotten` flag and at the same time removes the key from the registry,
so the key maps to nothing afterwards and subsequent callers start a fresh
execution instead of reusing the entry. The flag's effect is at completion
time: `doCall` for a call whose `forgotten` flag is set skips the registry
deletion (leaving the current mapping — e.g. a newer call registered after
the `Forget` — untouched), while without the flag it deletes the key.
`Forget` on a key with no entry leaves the state unchanged (the delete is
a no-op). -/
theorem singleflight_retain_amended (V E P : Type) (g : Singleflight.GState V E P)
    (key : String) (cid : Nat) (c : Singleflight.Call V E P)
    (hnodup : (g.m.map Prod.fst).Nodup)
    (hk : Singleflight.lookupKey g.m key = some cid)
    (hc : g.calls.get? cid = some c) :
    Singleflight.Forget g key
      = ⟨g.calls.set cid { c with forgotten := true },
          Singleflight.eraseKey g.m key⟩
    ∧ Singleflight.lookupKey (Singleflight.Forget g key).m key = none
    ∧ (∀ (g2 : Singleflight.GState V E P) (key2 : String) (cid2 : Nat)
          (c2 : Singleflight.Call V E P) (b : Singleflight.FnBehavior V E P),
        g2.calls.get? cid2 = some c2 → c2.forgotten = true →
        (Singleflight.doCall g2 key2 cid2 b).1.m = g2.m)
    ∧ (∀ (g3 : Singleflight.GState V E P) (key3 : String),
        key3 ∉ g3.m.map Prod.fst → Singleflight.Forget g3 key3 = g3) := by
  have hc2 : g.calls[cid]? = some c := by simpa using hc
  have h1 : Singleflight.Forget g key
      = ⟨g.calls.set cid { c with forgotten := true },
          Singleflight.eraseKey g.m key⟩ := by
    simp [Singleflight.Forget, hk, hc2]
  refine ⟨h1, ?_, ?_, ?_⟩
  · rw [h1]
    exact Singleflight.lookup_eraseKey_self g.m key hnodup
  · intro g2 key2 cid2 c2 b h2c hforg
    have hf : (Singleflight.execFn c2 b).forgotten = true := by
      cases b <;> simpa [Singleflight.execFn] using hforg
    simp only [Singleflight.doCall, h2c, hf, eq_self_iff_true, if_true]
    split
    · split <;> rfl
    · rfl
    · rfl
  · intro g3 key3 hmem
    have hlk : Singleflight.lookupKey g3.m key3 = none :=
      Singleflight.lookup_none_of_not_mem g3.m key3 hmem
    have her : Singleflight.eraseKey g3.m key3 = g3.m :=
      Singleflight.eraseKey_of_not_mem g3.m key3 hmem
    simp [Singleflight.Forget, hlk, her]

theorem singleflight_retain_amended_witness :
    Singleflight.Forget (⟨[Singleflight.Call.new], [("k", 0)]⟩ :
        Singleflight.GState Nat Nat Nat) "k"
      = ⟨[⟨none, Singleflight.StoredErr.noErr, true, 0, 0⟩], []⟩
    ∧ Singleflight.lookupKey (Singleflight.Forget (⟨[Singleflight.Call.new],
        [("k", 0)]⟩ : Singleflight.GState Nat Nat Nat) "k").m "k" = none := by
  have h := singleflight_retain_amended Nat Nat Nat
    ⟨[Singleflight.Call.new], [("k", 0)]⟩ "k" 0 Singleflight.Call.new
    (by decide) (by decide) rfl
  exact ⟨h.1, h.2.1⟩

/-- C4 counterexample: the claim says every joiner — blocking `Do` callers
and `DoChan` handles alike — is REPORTED a fixed "aborted without result"
error when `fn` self-terminates via `runtime.Goexit`. On the code this is
false at a concrete input (one duplicate `Do` caller and one `DoChan`
channel joined to key "k"): the cleanup's effect is `goexiting` — the
channels receive no `Result` at all (delivery happens only in the normal
branch) — and the duplicate `Do` caller, seeing `c.err == errGoexit`,
calls `runtime.Goexit()` itself instead of returning an error. Neither
outcome is a `returns` delivering the sentinel error. -/
theorem singleflight_goexit_cex :
    (Singleflight.doCall (⟨[⟨none, Singleflight.StoredErr.noErr, false, 1, 1⟩],
        [("k", 0)]⟩ : Singleflight.GState Nat Nat Nat) "k" 0
        Singleflight.FnBehavior.goexits).2
      = Singleflight.CleanupEffect.goexiting
    ∧ Singleflight.dupDoReturn
        (Singleflight.execFn (⟨none, Singleflight.StoredErr.noErr, false, 1, 1⟩ :
          Singleflight.Call Nat Nat Nat) Singleflight.FnBehavior.goexits)
      = Singleflight.DoOutcome.goexits
    ∧ (Singleflight.CleanupEffect.goexiting (V := Nat) (E := Nat) (P := Nat)
        ≠ Singleflight.CleanupEffect.returns
            [⟨none, Singleflight.StoredErr.goexitSentinel, true⟩])
    ∧ (Singleflight.DoOutcome.goexits (V := Nat) (E := Nat) (P := Nat)
        ≠ Singleflight.DoOutcome.returns none
            Singleflight.StoredErr.goexitSentinel true) := by
  decide

/-- C4 amended: when `fn` self-terminates via `runtime.Goexit`, the outcome
is recorded in the entry as the fixed sentinel error `errGoexit`, which is
a distinct constructor from a `*panicError` (never conflated with an
unrecoverable fault) and is never re-raised: the cleanup's effect is
`goexiting` (no re-panic, and no channel delivery), the initiating `Do`
caller's goroutine simply continues its `Goexit`, and a blocking duplicate
`Do` caller propagates the self-termination by calling `runtime.Goexit()`
itself rather than returning an error. -/
theorem singleflight_goexit_amended (V E P : Type) (g : Singleflight.GState V E P)
    (key : String) (cid : Nat) (c : Singleflight.Call V E P)
    (hc : g.calls.get? cid = some c) :
    (Singleflight.execFn c Singleflight.FnBehavior.goexits).err
      = Singleflight.StoredErr.goexitSentinel
    ∧ (Singleflight.doCall g key cid Singleflight.FnBehavior.goexits).2
      = Singleflight.CleanupEffect.goexiting
    ∧ Singleflight.initiatorReturn
        (Singleflight.doCall g key cid Singleflight.FnBehavior.goexits).1 cid
        (Singleflight.doCall g key cid Singleflight.FnBehavior.goexits).2
      = Singleflight.DoOutcome.goexits
    ∧ Singleflight.dupDoReturn (Singleflight.execFn c Singleflight.FnBehavior.goexits)
      = Singleflight.DoOutcome.goexits
    ∧ (∀ p : Singleflight.PanicError P,
        Singleflight.StoredErr.goexitSentinel (E := E)
          ≠ Singleflight.StoredErr.panicErr p) := by
  have hc2 : g.calls[cid]? = some c := by simpa using hc
  have heff : (Singleflight.doCall g key cid Singleflight.FnBehavior.goexits).2
      = Singleflight.CleanupEffect.goexiting := by
    simp [Singleflight.doCall, hc2, Singleflight.execFn]
  refine ⟨rfl, heff, ?_, rfl, ?_⟩
  · rw [heff]
    rfl
  · intro p h
    exact Singleflight.StoredErr.noConfusion h

theorem singleflight_goexit_amended_witness :
    (Singleflight.doCall (⟨[⟨none, Singleflight.StoredErr.noErr, false, 2, 0⟩],
        [("k", 0)]⟩ : Singleflight.GState Nat Nat Nat) "k" 0
        Singleflight.FnBehavior.goexits).2
      = Singleflight.CleanupEffect.goexiting
    ∧ Singleflight.dupDoReturn
        (Singleflight.execFn (⟨none, Singleflight.StoredErr.noErr, false, 2, 0⟩ :
          Singleflight.Call Nat Nat Nat) Singleflight.FnBehavior.goexits)
      = Singleflight.DoOutcome.goexits := by
  have h := singleflight_goexit_amended Nat Nat Nat
    ⟨[⟨none, Singleflight.StoredErr.noErr, false, 2, 0⟩], [("k", 0)]⟩ "k" 0
    ⟨none, Singleflight.StoredErr.noErr, false, 2, 0⟩ rfl
  exact ⟨h.2.1, h.2.2.2.1⟩

/-- C5: when `fn` passed to `Do` terminates with a panic carrying value `p`,
the stored error is the `*panicError` wrapping `p`, and — in the pure-`Do`
case, where no `DoChan` channel is attached to the entry (`c.chans = 0`) —
the same `*panicError` is re-raised on the caller of `Do`'s own goroutine:
the cleanup panics on the initiating caller's goroutine (`doCall` runs
synchronously inside `Do`), and every blocked duplicate `Do` caller, after
`c.wg.Wait()`, re-raises the same `*panicError` via `panic(e)`. -/
theorem singleflight_panic_rethrow (V E P : Type) (g : Singleflight.GState V E P)
    (key : String) (cid : Nat) (c : Singleflight.Call V E P) (p : P)
    (hc : g.calls.get? cid = some c) (hchans : c.chans = 0) :
    (Singleflight.execFn c (Singleflight.FnBehavior.panics p)).err
      = Singleflight.StoredErr.panicErr ⟨p⟩
    ∧ (Singleflight.doCall g key cid (Singleflight.FnBehavior.panics p)).2
      = Singleflight.CleanupEffect.rethrows ⟨p⟩
    ∧ Singleflight.initiatorReturn
        (Singleflight.doCall g key cid (Singleflight.FnBehavior.panics p)).1 cid
        (Singleflight.doCall g key cid (Singleflight.FnBehavior.panics p)).2
      = Singleflight.DoOutcome.rethrows ⟨p⟩
    ∧ Singleflight.dupDoReturn
        (Singleflight.execFn c (Singleflight.FnBehavior.panics p))
      = Singleflight.DoOutcome.rethrows ⟨p⟩ := by
  have hc2 : g.calls[cid]? = some c := by simpa using hc
  have heff : (Singleflight.doCall g key cid (Singleflight.FnBehavior.panics p)).2
      = Singleflight.CleanupEffect.rethrows ⟨p⟩ := by
    simp [Singleflight.doCall, hc2, Singleflight.execFn, hchans]
  refine ⟨rfl, heff, ?_, rfl⟩
  rw [heff]
  rfl

theorem singleflight_panic_rethrow_witness :
    (Singleflight.doCall (⟨[⟨none, Singleflight.StoredErr.noErr, false, 1, 0⟩],
        [("k", 0)]⟩ : Singleflight.GState Nat Nat Nat) "k" 0
        (Singleflight.FnBehavior.panics 7)).2
      = Singleflight.CleanupEffect.rethrows ⟨7⟩
    ∧ Singleflight.dupDoReturn
        (Singleflight.execFn (⟨none, Singleflight.StoredErr.noErr, false, 1, 0⟩ :
          Singleflight.Call Nat Nat Nat) (Singleflight.FnBehavior.panics 7))
      = Singleflight.DoOutcome.rethrows ⟨7⟩ := by
  have h := singleflight_panic_rethrow Nat Nat Nat
    ⟨[⟨none, Singleflight.StoredErr.noErr, false, 1, 0⟩], [("k", 0)]⟩ "k" 0
    ⟨none, Singleflight.StoredErr.noErr, false, 1, 0⟩ 7 rfl rfl
  exact ⟨h.2.1, h.2.2.2⟩
